import Mathlib

/-!
Verification of the trufflehog core against its specification.

The development shallowly embeds the two subsystems present in the sources:

* `pkg/engine/engine.go` — the concurrent detection pipeline (`Engine`,
  `Start`, `detectorWorker`).  The per-chunk scanning logic of
  `detectorWorker` is embedded as a pure trace-producing function, and the
  concurrency skeleton of `Start` (worker pool, `sync.WaitGroup`, close of
  the results channel) is embedded as a small-step transition relation.

* `pkg/sources/github` — only `github_test.go` is present in the sources;
  the GitHub source itself (`github.go`) is absent.  Its operations are
  modelled from the specification (documented on each such definition) and
  anchored, where possible, on the concrete behaviours pinned by the tests.
-/

/-! ### String helpers

Executable counterparts of the Go `strings` functions used by
`detectorWorker` (`strings.ToLower`, `strings.Contains`) and by the
GitHub-source model.  They are defined over the character list of the
string so that every use reduces definitionally. -/

/-- Go `strings.ToLower`: lower-case every character. -/
def strToLower (s : String) : String := String.mk (s.data.map Char.toLower)

/-- Go `strings.Contains hay needle`: `needle` occurs as a contiguous substring
of `hay` (the empty needle occurs in every string). -/
def strContains (hay needle : String) : Bool :=
  (List.range (hay.data.length + 1)).any
    (fun i => needle.data.isPrefixOf (hay.data.drop i))

/-- Go `strings.HasPrefix s pre`. -/
def strHasPrefixOf (pre s : String) : Bool := pre.data.isPrefixOf s.data

/-! ### Detection-engine data model (`pkg/engine/engine.go`)

`sources.Chunk` carries raw bytes plus source metadata; bytes are embedded
as `String` and the opaque metadata as `String`.  `detectors.Detector` is
the capability contract `{Keywords() []string; FromData(ctx, verify, data)
([]Result, error)}`; the `ctx` argument is dropped and the Go error is an
`Except` value.  `decoders.Decoder.FromChunk` returns a decoded chunk or
`nil`, embedded as `Option Chunk`. -/

structure Chunk where
  data : String
  sourceMetadata : String
deriving DecidableEq, Repr

structure DetectorResult where
  verified : Bool
  raw : String
deriving DecidableEq, Repr

/-- The type `detectors.ResultWithMetadata`: a detector result merged with the
originating chunk's source metadata. -/
structure ResultWithMetadata where
  result : DetectorResult
  sourceMetadata : String
deriving DecidableEq, Repr

/-- Go `detectors.CopyMetadata(chunk, result)`. -/
def CopyMetadata (chunk : Chunk) (result : DetectorResult) : ResultWithMetadata :=
  { result := result, sourceMetadata := chunk.sourceMetadata }

/-- The capability `decoders.Decoder`: `FromChunk` yields a decoded chunk or declines. -/
def Decoder : Type := Chunk → Option Chunk

structure Detector where
  keywords : List String
  fromData : Bool → String → Except String (List DetectorResult)

/-- The engine's detector registry `map[bool][]Detector`, keyed by the
verify flag.  A `none` entry is an absent map key. -/
structure DetectorMap where
  verified : Option (List Detector)
  unverified : Option (List Detector)

/-- The slice stored under key `v`, `[]` when the key is absent. -/
def DetectorMap.partitionOf (m : DetectorMap) (v : Bool) : List Detector :=
  (if v then m.verified else m.unverified).getD []

/-- The key set of the registry map (as a list; `true` listed first). -/
def DetectorMap.keys (m : DetectorMap) : List Bool :=
  (if m.verified.isSome then [true] else []) ++
    (if m.unverified.isSome then [false] else [])

/-- Number of keys of the registry map (`len(e.detectors)` in Go). -/
def DetectorMap.size (m : DetectorMap) : Nat := m.keys.length

/-! ### The detector worker as a trace-producing function

`detectorWorker` (engine.go:108-139) is embedded as a pure function from
the configuration and the sequence of chunks drawn from the input channel
to the list of observable events it performs, in program order.  Go's
iteration order over the registry map `e.detectors` is not specified by
the language, so it is an explicit parameter `ord` (the sequence of keys
produced by `range e.detectors`). -/

inductive Event where
  /-- The call `detector.FromData(ctx, verify, decoded.Data)` happened on the
  detector at position `i` of partition `verify`. -/
  | invoked (verify : Bool) (i : Nat)
  /-- The keyword prefilter failed: the detector at position `i` of
  partition `verify` was skipped without calling `FromData`. -/
  | skipped (verify : Bool) (i : Nat)
  /-- The call to `FromData` returned an error, which was logged (`logrus ... Error`). -/
  | errorLogged (verify : Bool) (i : Nat) (msg : String)
  /-- A result was sent on the results channel (`e.results <- ...`). -/
  | emitted (r : ResultWithMetadata)
deriving DecidableEq, Repr

/-- The keyword prefilter (engine.go:118-124): scan the keyword list in
order; stop at the first keyword whose lower-casing occurs in the
lower-cased data. -/
def foundKeyword (dataLower : String) : List String → Bool
  | [] => false
  | kw :: rest =>
    if strContains dataLower (strToLower kw) then true
    else foundKeyword dataLower rest

/-- One iteration of the detector loop (engine.go:117-136) for the
detector at position `i` of partition `verify`. -/
def scanDetector (verify : Bool) (i : Nat) (dataLower data : String)
    (chunk : Chunk) (d : Detector) : List Event :=
  if foundKeyword dataLower d.keywords then
    match d.fromData verify data with
    | .error msg => [.invoked verify i, .errorLogged verify i msg]
    | .ok results =>
        .invoked verify i :: results.map (fun r => .emitted (CopyMetadata chunk r))
  else [.skipped verify i]

/-- The detector loop over one partition's slice, with `i` the position of
the head of `ds` in the full slice. -/
def scanDetectors (verify : Bool) (dataLower data : String) (chunk : Chunk) :
    Nat → List Detector → List Event
  | _, [] => []
  | i, d :: ds =>
    scanDetector verify i dataLower data chunk d ++
      scanDetectors verify dataLower data chunk (i + 1) ds

/-- The loop `for verify, detectorsSet := range e.detectors` (engine.go:116) applied
to one decoded chunk, with `dataLower := strings.ToLower(decoded.Data)`
computed once (engine.go:115). -/
def scanDecoded (m : DetectorMap) (ord : List Bool) (decoded chunk : Chunk) :
    List Event :=
  (ord.map (fun v =>
    scanDetectors v (strToLower decoded.data) decoded.data chunk 0
      (m.partitionOf v))).flatten

/-- The decoder loop (engine.go:110-138) for one chunk: every decoder is
applied to the original chunk; a `nil` decode skips only that decoder. -/
def scanChunk (decs : List Decoder) (m : DetectorMap) (ord : List Bool)
    (chunk : Chunk) : List Event :=
  (decs.map (fun dec =>
    match dec chunk with
    | none => []
    | some decoded => scanDecoded m ord decoded chunk)).flatten

/-- Go `detectorWorker` (engine.go:108-139): process every chunk drawn from
the input channel, in order. -/
def detectorWorker (decs : List Decoder) (m : DetectorMap) (ord : List Bool)
    (chunks : List Chunk) : List Event :=
  (chunks.map (scanChunk decs m ord)).flatten

/-- The results sent on the output channel, in the order they appear in an
event trace. -/
def emittedOf (events : List Event) : List ResultWithMetadata :=
  events.filterMap (fun e =>
    match e with
    | .emitted r => some r
    | _ => none)

/-- The results one detector contributes for one decoded payload: none when
the prefilter skips it or `FromData` errors, otherwise its results merged
with the chunk metadata. -/
def detectorFindings (verify : Bool) (dataLower data : String) (chunk : Chunk)
    (d : Detector) : List ResultWithMetadata :=
  if foundKeyword dataLower d.keywords then
    match d.fromData verify data with
    | .error _ => []
    | .ok results => results.map (CopyMetadata chunk)
  else []

/-! ### Engine construction (`Start`, engine.go:51-98)

`Start` builds the engine from functional options, then fills defaults:
a zero concurrency becomes `runtime.NumCPU()`, an empty decoder list
becomes `decoders.DefaultDecoders()`, and an empty detector map becomes
`{true: DefaultDetectors()}`.  `runtime.NumCPU()` and the two default sets
live outside the engine sources and are parameters of the embedding. -/

structure Engine where
  concurrency : Nat
  decoders : List Decoder
  detectors : DetectorMap

inductive EngineOption where
  | withConcurrency (concurrency : Nat)
  | withDetectors (verify : Bool) (ds : List Detector)
  | withDecoders (ds : List Decoder)

/-- Go `WithDetectors(verify, d...)` (engine.go:33-43): create the map entry
for `verify` when absent, then append `ds` to it. -/
def applyWithDetectors (m : DetectorMap) (verify : Bool) (ds : List Detector) :
    DetectorMap :=
  if verify then { m with verified := some (m.verified.getD [] ++ ds) }
  else { m with unverified := some (m.unverified.getD [] ++ ds) }

/-- Application of one functional option (engine.go:27-49). -/
def applyOption (e : Engine) : EngineOption → Engine
  | .withConcurrency c => { e with concurrency := c }
  | .withDetectors v ds => { e with detectors := applyWithDetectors e.detectors v ds }
  | .withDecoders ds => { e with decoders := ds }

/-- The engine value before any option is applied (engine.go:52-55): zero
concurrency, no decoders, a nil detector map. -/
def emptyEngine : Engine :=
  { concurrency := 0, decoders := [], detectors := ⟨none, none⟩ }

/-- engine.go:63-67: `if e.concurrency == 0 { e.concurrency = runtime.NumCPU() }`. -/
def setDefaultConcurrency (numCPU : Nat) (e : Engine) : Engine :=
  if e.concurrency == 0 then { e with concurrency := numCPU } else e

/-- engine.go:88-90: `if len(e.decoders) == 0 { e.decoders = decoders.DefaultDecoders() }`. -/
def setDefaultDecoders (defaultDecoders : List Decoder) (e : Engine) : Engine :=
  if e.decoders.length == 0 then { e with decoders := defaultDecoders } else e

/-- engine.go:92-95: an empty detector map becomes `{true: DefaultDetectors()}`. -/
def setDefaultDetectors (defaultDetectors : List Detector) (e : Engine) : Engine :=
  if e.detectors.size == 0 then
    { e with detectors := ⟨some defaultDetectors, none⟩ }
  else e

/-- Go `Start` (engine.go:51-98) restricted to its configuration effect:
apply the options in order, then fill the three defaults in the order the
code does (`concurrency == 0` at line 63, `len(e.decoders) == 0` at line
88, `len(e.detectors) == 0` at line 92). -/
def Start (numCPU : Nat) (defaultDecoders : List Decoder)
    (defaultDetectors : List Detector) (options : List EngineOption) : Engine :=
  setDefaultDetectors defaultDetectors
    (setDefaultDecoders defaultDecoders
      (setDefaultConcurrency numCPU (options.foldl applyOption emptyEngine)))

/-! ### The run-time skeleton of `Start` as a transition system

`Start` (engine.go:69-86) launches `concurrency` workers, each running
`detectorWorker` and decrementing a `sync.WaitGroup` on exit, plus one
closer goroutine that waits for the group and then closes the results
channel.  The states a worker can occupy and the synchronisation events
are embedded as a small-step relation.  Both channels are unbuffered, so
a send on `e.results` completes exactly when the consumer receives the
value: emission and delivery coincide in one `emit` step.  The
`time.Sleep(time.Second)` before the close (engine.go:84) only delays the
`closeOut` step and needs no further representation.

`F` abstracts the per-chunk scan: in the engine it is
`emittedOf (scanChunk decs m ord c)` for the configured decoders and
registry. -/

inductive WorkerState where
  /-- Blocked at `for chunk := range e.chunks` (engine.go:109). -/
  | waiting
  /-- Processing a chunk, with `out` the results still to be sent on
  `e.results`. -/
  | scanning (out : List ResultWithMetadata)
  /-- The worker returned from `detectorWorker` and `workerWg.Done()` ran. -/
  | exited
deriving DecidableEq, Repr

structure EngineRunState where
  /-- Chunks sent on `e.chunks` and not yet received by a worker. -/
  pending : List Chunk
  /-- The producer closed `e.chunks`. -/
  chunksClosed : Bool
  workers : List WorkerState
  /-- The `sync.WaitGroup` counter. -/
  wg : Nat
  /-- Ghost: chunks received by workers, in order of receipt. -/
  taken : List Chunk
  /-- Results received by the consumer of `e.results`, in order. -/
  delivered : List ResultWithMetadata
  /-- Times `close(e.ResultsChan())` has executed. -/
  closeCount : Nat
  /-- The results channel is closed. -/
  resultsClosed : Bool
deriving Repr

/-- The state right after `Start` spawned the workers: `n` workers blocked
on the open input channel, the wait-group at `n`, nothing delivered, the
results channel open. -/
def initRunState (n : Nat) (chunks : List Chunk) : EngineRunState :=
  { pending := chunks, chunksClosed := false,
    workers := List.replicate n .waiting, wg := n,
    taken := [], delivered := [], closeCount := 0, resultsClosed := false }

/-- One scheduler step of the engine run (engine.go:69-86 and 108-139). -/
inductive EngineStep (F : Chunk → List ResultWithMetadata) :
    EngineRunState → EngineRunState → Prop
  /-- The producer closes the input channel. -/
  | closeInput (s : EngineRunState) :
      s.chunksClosed = false →
      EngineStep F s { s with chunksClosed := true }
  /-- A waiting worker receives a chunk from `e.chunks` and computes its
  results (engine.go:109-127). -/
  | take (s : EngineRunState) (i : Nat) (c : Chunk) (rest : List Chunk) :
      s.workers.get? i = some .waiting →
      s.pending = c :: rest →
      EngineStep F s { s with
        pending := rest
        taken := s.taken ++ [c]
        workers := s.workers.set i (.scanning (F c)) }
  /-- A scanning worker sends its next result; the unbuffered send
  completes together with the consumer's receive (engine.go:134). -/
  | emit (s : EngineRunState) (i : Nat) (r : ResultWithMetadata)
      (out : List ResultWithMetadata) :
      s.workers.get? i = some (.scanning (r :: out)) →
      EngineStep F s { s with
        delivered := s.delivered ++ [r]
        workers := s.workers.set i (.scanning out) }
  /-- A worker finished its chunk and loops back to the channel receive. -/
  | finish (s : EngineRunState) (i : Nat) :
      s.workers.get? i = some (.scanning []) →
      EngineStep F s { s with workers := s.workers.set i .waiting }
  /-- The loop `range e.chunks` terminates once the channel is closed and drained;
  the worker runs `workerWg.Done()` (engine.go:73-76). -/
  | exit (s : EngineRunState) (i : Nat) :
      s.workers.get? i = some .waiting →
      s.chunksClosed = true →
      s.pending = [] →
      EngineStep F s { s with
        workers := s.workers.set i .exited
        wg := s.wg - 1 }
  /-- The closer goroutine returns from `workerWg.Wait()` and runs
  `close(e.ResultsChan())` once (engine.go:79-86). -/
  | closeOut (s : EngineRunState) :
      s.wg = 0 →
      s.closeCount = 0 →
      EngineStep F s { s with
        resultsClosed := true
        closeCount := s.closeCount + 1 }

/-- States reachable from the post-`Start` state. -/
def EngineReachable (F : Chunk → List ResultWithMetadata) (n : Nat)
    (chunks : List Chunk) (s : EngineRunState) : Prop :=
  Relation.ReflTransGen (EngineStep F) (initRunState n chunks) s

/-- Results computed by a worker and not yet handed to the consumer. -/
def WorkerState.outOf : WorkerState → List ResultWithMetadata
  | .waiting => []
  | .scanning out => out
  | .exited => []

/-- Results held inside the worker pool, across all workers. -/
def inFlight (s : EngineRunState) : List ResultWithMetadata :=
  (s.workers.map WorkerState.outOf).flatten

/-! ### GitHub repository enumerator (`pkg/sources/github`)

Only `github_test.go` is under the sources; `github.go` itself is absent.
The operations below are therefore modelled from the specification
(§4.1, §7 of the design document), with the platform API abstracted as an
oracle of structured responded records, and — where the specification's
wording leaves room — pinned to the concrete behaviours asserted by
`github_test.go`. -/

/-- Platform API failure kinds distinguished by the specification:
`notFound` (a 404, "no data for this login") versus a transport failure. -/
inductive ApiErr where
  | notFound
  | transport (msg : String)
deriving DecidableEq, Repr

/-- The platform API surface consumed by the enumerator, each endpoint
already fully paginated (a call returns the union of all pages, in page
order). -/
structure GithubApi where
  /-- "list repos by org": the `clone_url` field of each record. -/
  orgRepos : String → Except ApiErr (List String)
  /-- "list repos by user": the `clone_url` field of each record. -/
  userRepos : String → Except ApiErr (List String)
  /-- "list gists by user": the `git_pull_url` field of each record. -/
  userGists : String → Except ApiErr (List String)
  /-- "list orgs of the authenticated user" (`/user/orgs`). -/
  userOrgs : Except ApiErr (List String)
  /-- "list installations for app": the account login of each
  installation (`/app/installations`). -/
  appInstallationOrgs : Except ApiErr (List String)
  /-- "list members by org": the member logins, in listing order. -/
  orgMembers : String → Except ApiErr (List String)
  /-- "list repos for installation" (`/installation/repositories`). -/
  installationRepos : Except ApiErr (List String)

/-- Modelled from the spec: the Enumeration State, the mutable accumulator
owned by the `Source` during a run.  Per the tests, gist URLs are
accumulated into the same `repos` sequence as repository URLs
(`TestAddGistsByUser` asserts `s.repos`), and discovered organizations and
members get their own sequences. -/
structure Source where
  repos : List String
  orgs : List String
  members : List String
deriving DecidableEq, Repr

/-- Modelled from the spec: `addReposByOrg` — paginate the organization's
repository listing and append each page's `clone_url` field to the repo
sequence; a failing listing propagates to the caller. -/
def addReposByOrg (api : GithubApi) (org : String) (s : Source) :
    Except ApiErr Source :=
  match api.orgRepos org with
  | .error e => .error e
  | .ok rs => .ok { s with repos := s.repos ++ rs }

/-- Modelled from the spec: `addReposByUser` — paginate the user's
repository listing and append each `clone_url` to the repo sequence. -/
def addReposByUser (api : GithubApi) (user : String) (s : Source) :
    Except ApiErr Source :=
  match api.userRepos user with
  | .error e => .error e
  | .ok rs => .ok { s with repos := s.repos ++ rs }

/-- Modelled from the spec: `addGistsByUser` — paginate the user's gist
listing and append each `git_pull_url`; the operation has no error return
(`github_test.go:98` ignores none), so a failing listing appends
nothing. -/
def addGistsByUser (api : GithubApi) (user : String) (s : Source) : Source :=
  match api.userGists user with
  | .ok gs => { s with repos := s.repos ++ gs }
  | .error _ => s

/-- Modelled from the spec: `addOrgsByUser` — list the authenticated
user's organizations and append their names to the org sequence; no error
return (`github_test.go:165`). -/
def addOrgsByUser (api : GithubApi) (s : Source) : Source :=
  match api.userOrgs with
  | .ok os => { s with orgs := s.orgs ++ os }
  | .error _ => s

/-- Modelled from the spec: `addMembersByApp` — list the installations
reachable by the app identity to discover member organizations, then for
each such organization list its human members, appending the member
logins in listing order; a failing listing propagates. -/
def addMembersOrgs (api : GithubApi) : List String → Source → Except ApiErr Source
  | [], s => .ok s
  | org :: rest, s =>
    match api.orgMembers org with
    | .error e => .error e
    | .ok ms => addMembersOrgs api rest { s with members := s.members ++ ms }

def addMembersByApp (api : GithubApi) (s : Source) : Except ApiErr Source :=
  match api.appInstallationOrgs with
  | .error e => .error e
  | .ok orgs => addMembersOrgs api orgs s

/-- Modelled from the spec: `addReposByApp` — call the installation's own
repository listing endpoint and append the authorized repositories. -/
def addReposByApp (api : GithubApi) (s : Source) : Except ApiErr Source :=
  match api.installationRepos with
  | .error e => .error e
  | .ok rs => .ok { s with repos := s.repos ++ rs }

/-- An entry that is already a fully-qualified hosting URL. -/
def isGithubURL (entry : String) : Bool := strHasPrefixOf "https://" entry

/-- Go `strings.HasSuffix s suf`. -/
def strHasSuffixOf (suf s : String) : Bool := suf.data.isSuffixOf s.data

/-- Modelled from the spec: the contribution of one repo-sequence entry to
`normalizeRepos` (§4.1 "resolve-or-mark-unresolved", pinned to the three
cases of `TestNormalizeRepos`): a fully-qualified URL is kept as-is with
its `.git`-normalized form added after it (`github_test.go:179-183`); a
bare login is resolved by re-running by-user and gists-by-user enumeration
and is replaced by whatever is found (`github_test.go:196-200`); a login
for which both endpoints 404 — no data — is kept, marked by one appended
empty-string placeholder, and never fails the run
(`github_test.go:209-215`). -/
def normalizeEntry (api : GithubApi) (entry : String) : List String :=
  if isGithubURL entry then
    if strHasSuffixOf ".git" entry then [entry] else [entry, entry ++ ".git"]
  else
    let rs := match api.userRepos entry with
      | .ok l => l
      | .error _ => []
    let gs := match api.userGists entry with
      | .ok l => l
      | .error _ => []
    if (rs ++ gs).isEmpty then [entry, ""] else rs ++ gs

/-- Modelled from the spec: `normalizeRepos` — rebuild the repo sequence
from each entry's normalization, tolerating 404s without failing the
overall run (the operation is total). -/
def normalizeRepos (api : GithubApi) (s : Source) : Source :=
  { s with repos := (s.repos.map (normalizeEntry api)).flatten }

/-- The rate-limit hint carried by a platform response: the
`x-ratelimit-remaining` and `x-ratelimit-reset` headers, absent when the
platform did not send them. -/
structure RateLimitResponse where
  remaining : Option Nat
  reset : Option Int
deriving DecidableEq, Repr

/-- Modelled from the spec: `handleRateLimit` — the Rate-Limit Guard.
Given an API error and a response it decides whether the caller should
sleep and retry: it recommends a wait only when the error is a rate-limit
error, the response is present, `remaining == 0`, and the reset timestamp
lies in the future; absent inputs or headers mean "no retry"
(`github_test.go:220-228`). -/
def handleRateLimit (now : Int) (isRateLimitError : Bool)
    (res : Option RateLimitResponse) : Bool :=
  if isRateLimitError then
    match res with
    | none => false
    | some r =>
      match r.remaining, r.reset with
      | some remaining, some reset => remaining == 0 && decide (now < reset)
      | _, _ => false
  else false

/-- The findings one partition contributes for one decoded payload, in the
partition's own slice order. -/
def partitionFindings (v : Bool) (decoded chunk : Chunk) (ds : List Detector) :
    List ResultWithMetadata :=
  (ds.map (detectorFindings v (strToLower decoded.data) decoded.data chunk)).flatten

/-- The engine-run invariant: the wait-group counts the workers that have
not exited, the close counter tracks the closed flag, the channel closes
only at a zero wait-group, and the delivered results together with the
in-flight ones are exactly the results of the chunks taken so far. -/
def EngineInv (F : Chunk → List ResultWithMetadata) (s : EngineRunState) : Prop :=
  s.wg = s.workers.countP (fun w => w != WorkerState.exited) ∧
  s.closeCount = (if s.resultsClosed then 1 else 0) ∧
  (s.resultsClosed = true → s.wg = 0) ∧
  (s.delivered : Multiset ResultWithMetadata) + (inFlight s : Multiset ResultWithMetadata)
    = ((s.taken.map F).flatten : Multiset ResultWithMetadata)

/-! ### Concrete instances used by the witnesses -/

def chunkW : Chunk := ⟨"the key", "meta"⟩

def resultW : DetectorResult := ⟨true, "secret"⟩

def rwW : ResultWithMetadata := ⟨resultW, "meta"⟩

def detectorW : Detector := ⟨["key"], fun _ _ => .ok [resultW]⟩

def decoderId : Decoder := fun c => some c

def mapW : DetectorMap := ⟨some [detectorW], none⟩

def runFinalW : EngineRunState :=
  { pending := [], chunksClosed := true, workers := [WorkerState.exited], wg := 0,
    taken := [chunkW], delivered := [rwW], closeCount := 1, resultsClosed := true }

def detectorErrW : Detector := ⟨["key"], fun _ _ => .error "boom"⟩

def detectorFalseW : Detector := ⟨["key"], fun _ _ => .ok [⟨false, "fsec"⟩]⟩

def mapBothW : DetectorMap := ⟨some [detectorW], some [detectorFalseW]⟩

def api404W : GithubApi :=
  { orgRepos := fun _ => .error ApiErr.notFound
    userRepos := fun _ => .error ApiErr.notFound
    userGists := fun _ => .error ApiErr.notFound
    userOrgs := .ok []
    appInstallationOrgs := .ok []
    orgMembers := fun _ => .ok []
    installationRepos := .ok [] }

def apiAppW : GithubApi :=
  { orgRepos := fun _ => .error ApiErr.notFound
    userRepos := fun _ => .error ApiErr.notFound
    userGists := fun _ => .error ApiErr.notFound
    userOrgs := .ok []
    appInstallationOrgs := .ok ["super-secret-org"]
    orgMembers := fun o =>
      if o == "super-secret-org" then .ok ["ssm1", "ssm2", "ssm3"]
      else .error ApiErr.notFound
    installationRepos := .ok [] }

def apiUserW : GithubApi :=
  { orgRepos := fun _ => .error ApiErr.notFound
    userRepos := fun u =>
      if u == "super-secret-user" then .ok ["super-secret-repo"]
      else .error ApiErr.notFound
    userGists := fun u =>
      if u == "super-secret-user" then .ok ["super-secret-gist"]
      else .error ApiErr.notFound
    userOrgs := .ok []
    appInstallationOrgs := .ok []
    orgMembers := fun _ => .ok []
    installationRepos := .ok [] }

/-! ### Lemmas about the detector-worker trace -/

theorem foundKeyword_iff (dataLower : String) (kws : List String) :
    foundKeyword dataLower kws = true ↔
      ∃ kw ∈ kws, strContains dataLower (strToLower kw) = true := by
  induction kws with
  | nil => simp [foundKeyword]
  | cons kw rest ih =>
    by_cases h : strContains dataLower (strToLower kw) = true
    · simp [foundKeyword, h]
    · simp only [foundKeyword, if_neg h, ih, List.mem_cons]
      constructor
      · rintro ⟨k, hk, hc⟩
        exact ⟨k, Or.inr hk, hc⟩
      · rintro ⟨k, hk | hk, hc⟩
        · exact absurd (hk ▸ hc) h
        · exact ⟨k, hk, hc⟩

theorem invoked_mem_scanDetector (v v' : Bool) (i j : Nat) (dl data : String)
    (chunk : Chunk) (d : Detector) :
    Event.invoked v i ∈ scanDetector v' j dl data chunk d ↔
      (v = v' ∧ i = j ∧ foundKeyword dl d.keywords = true) := by
  unfold scanDetector
  by_cases hk : foundKeyword dl d.keywords
  · rw [if_pos hk]
    cases hfd : d.fromData v' data with
    | error msg => simp [hk]
    | ok results =>
      simp only [List.mem_cons, List.mem_map, Event.invoked.injEq]
      constructor
      · rintro (⟨hv, hi⟩ | ⟨r, _, h⟩)
        · exact ⟨hv, hi, hk⟩
        · exact absurd h (by simp)
      · rintro ⟨hv, hi, _⟩
        exact Or.inl ⟨hv, hi⟩
  · simp [if_neg hk, hk]

theorem mem_scanDetectors_iff (e : Event) (v' : Bool) (dl data : String)
    (chunk : Chunk) (j : Nat) (ds : List Detector) :
    e ∈ scanDetectors v' dl data chunk j ds ↔
      ∃ k d, ds.get? k = some d ∧ e ∈ scanDetector v' (j + k) dl data chunk d := by
  induction ds generalizing j with
  | nil => simp [scanDetectors]
  | cons d ds ih =>
    simp only [scanDetectors, List.mem_append, ih]
    constructor
    · rintro (h | ⟨k, d', hget, hmem⟩)
      · exact ⟨0, d, rfl, by simpa using h⟩
      · exact ⟨k + 1, d', hget, by
          have : j + 1 + k = j + (k + 1) := by omega
          rwa [this] at hmem⟩
    · rintro ⟨k, d', hget, hmem⟩
      cases k with
      | zero =>
        injection hget with hget
        subst hget
        exact Or.inl (by simpa using hmem)
      | succ k =>
        refine Or.inr ⟨k, d', hget, ?_⟩
        have : j + (k + 1) = j + 1 + k := by omega
        rwa [this] at hmem

theorem invoked_mem_scanDecoded (m : DetectorMap) (ord : List Bool)
    (decoded chunk : Chunk) (v : Bool) (i : Nat) (hv : v ∈ ord) :
    Event.invoked v i ∈ scanDecoded m ord decoded chunk ↔
      ∃ d, (m.partitionOf v).get? i = some d ∧
        foundKeyword (strToLower decoded.data) d.keywords = true := by
  unfold scanDecoded
  rw [List.mem_flatten]
  constructor
  · rintro ⟨l, hl, hmem⟩
    rw [List.mem_map] at hl
    obtain ⟨v', hv', rfl⟩ := hl
    rw [mem_scanDetectors_iff] at hmem
    obtain ⟨k, d, hget, hmem⟩ := hmem
    rw [invoked_mem_scanDetector] at hmem
    obtain ⟨rfl, hik, hk⟩ := hmem
    simp only [Nat.zero_add] at hik
    subst hik
    exact ⟨d, hget, hk⟩
  · rintro ⟨d, hget, hk⟩
    refine ⟨scanDetectors v (strToLower decoded.data) decoded.data chunk 0
      (m.partitionOf v), List.mem_map_of_mem _ hv, ?_⟩
    rw [mem_scanDetectors_iff]
    exact ⟨i, d, hget, by rw [invoked_mem_scanDetector]; exact ⟨rfl, by omega, hk⟩⟩

theorem emittedOf_append (a b : List Event) :
    emittedOf (a ++ b) = emittedOf a ++ emittedOf b := by
  simp [emittedOf, List.filterMap_append]

theorem emittedOf_flatten (ls : List (List Event)) :
    emittedOf ls.flatten = (ls.map emittedOf).flatten := by
  induction ls with
  | nil => rfl
  | cons l ls ih => simp [emittedOf_append, ih]

theorem emittedOf_map_emitted (f : DetectorResult → ResultWithMetadata)
    (rs : List DetectorResult) :
    emittedOf (rs.map (fun r => Event.emitted (f r))) = rs.map f := by
  induction rs with
  | nil => rfl
  | cons r rs ih => simp [emittedOf] at ih ⊢; exact ih

theorem emittedOf_scanDetector (v : Bool) (i : Nat) (dl data : String)
    (chunk : Chunk) (d : Detector) :
    emittedOf (scanDetector v i dl data chunk d) =
      detectorFindings v dl data chunk d := by
  unfold scanDetector detectorFindings
  by_cases hk : foundKeyword dl d.keywords
  · rw [if_pos hk, if_pos hk]
    cases d.fromData v data with
    | error msg => simp [emittedOf]
    | ok results =>
      have h := emittedOf_map_emitted (CopyMetadata chunk) results
      simp [emittedOf] at h ⊢
      exact h
  · simp [if_neg hk, emittedOf]

theorem emittedOf_scanDetectors (v : Bool) (dl data : String) (chunk : Chunk)
    (j : Nat) (ds : List Detector) :
    emittedOf (scanDetectors v dl data chunk j ds) =
      (ds.map (detectorFindings v dl data chunk)).flatten := by
  induction ds generalizing j with
  | nil => rfl
  | cons d ds ih =>
    simp [scanDetectors, emittedOf_append, emittedOf_scanDetector, ih]

theorem emittedOf_scanDecoded (m : DetectorMap) (ord : List Bool)
    (decoded chunk : Chunk) :
    emittedOf (scanDecoded m ord decoded chunk) =
      (ord.map (fun v => partitionFindings v decoded chunk (m.partitionOf v))).flatten := by
  unfold scanDecoded partitionFindings
  rw [emittedOf_flatten, List.map_map]
  have h : (emittedOf ∘ fun v => scanDetectors v (strToLower decoded.data)
        decoded.data chunk 0 (m.partitionOf v)) =
      fun v => (List.map (detectorFindings v (strToLower decoded.data)
        decoded.data chunk) (m.partitionOf v)).flatten := by
    funext v
    simp only [Function.comp]
    exact emittedOf_scanDetectors v (strToLower decoded.data) decoded.data chunk 0
      (m.partitionOf v)
  rw [h]

/-! ### Lemmas about the engine run transition system -/

theorem countP_set_exchange {α : Type} (p : α → Bool) (l : List α) (i : Nat)
    (a b : α) (h : l.get? i = some a) :
    (l.set i b).countP p + (if p a then 1 else 0) =
      l.countP p + (if p b then 1 else 0) := by
  induction l generalizing i with
  | nil => simp at h
  | cons x xs ih =>
    cases i with
    | zero =>
      simp only [List.get?] at h
      injection h with h
      rw [h]
      simp only [List.set, List.countP_cons]
      by_cases hpa : p a <;> by_cases hpb : p b <;> simp [hpa, hpb] <;> omega
    | succ n =>
      simp only [List.get?] at h
      simp only [List.set, List.countP_cons]
      have := ih n h
      by_cases hpx : p x <;> simp [hpx] <;> omega

theorem multiset_flatten_set_exchange {α : Type} (l : List (List α)) (i : Nat)
    (a b : List α) (h : l.get? i = some a) :
    ((l.set i b).flatten : Multiset α) + (a : Multiset α)
      = (l.flatten : Multiset α) + (b : Multiset α) := by
  induction l generalizing i with
  | nil => simp at h
  | cons x xs ih =>
    cases i with
    | zero =>
      simp only [List.get?] at h
      injection h with h
      rw [h]
      simp only [List.set, List.flatten_cons, ← Multiset.coe_add]
      abel
    | succ n =>
      simp only [List.get?] at h
      simp only [List.set, List.flatten_cons, ← Multiset.coe_add]
      rw [add_assoc, ih n h, ← add_assoc]

theorem engineInv_init (F : Chunk → List ResultWithMetadata) (n : Nat)
    (chunks : List Chunk) : EngineInv F (initRunState n chunks) := by
  refine ⟨?_, rfl, by simp [initRunState], ?_⟩
  · simp only [initRunState]
    induction n with
    | zero => rfl
    | succ k ih => simpa [List.replicate, List.countP_cons] using ih
  · simp only [initRunState, inFlight]
    induction n with
    | zero => rfl
    | succ k ih => simpa [List.replicate, WorkerState.outOf] using ih

theorem engineInv_step (F : Chunk → List ResultWithMetadata)
    (s s' : EngineRunState) (hstep : EngineStep F s s') (hinv : EngineInv F s) :
    EngineInv F s' := by
  obtain ⟨hwg, hcc, hrc, hbal⟩ := hinv
  cases hstep with
  | closeInput h =>
    exact ⟨hwg, hcc, hrc, hbal⟩
  | take i c rest hw hp =>
    have hcount := countP_set_exchange (fun w => w != WorkerState.exited)
      s.workers i WorkerState.waiting (WorkerState.scanning (F c)) hw
    have hb1 : ((fun w => w != WorkerState.exited) WorkerState.waiting) = true := rfl
    have hb2 : ((fun w => w != WorkerState.exited) (WorkerState.scanning (F c))) = true := rfl
    rw [hb1, hb2, if_pos rfl] at hcount
    have hget : (s.workers.map WorkerState.outOf).get? i = some [] := by
      rw [List.get?_map, hw]; rfl
    have hflat := multiset_flatten_set_exchange (s.workers.map WorkerState.outOf)
      i [] (F c) hget
    simp only [Multiset.coe_nil, add_zero] at hflat
    refine ⟨?_, ?_, ?_, ?_⟩ <;> dsimp only
    · omega
    · exact hcc
    · exact hrc
    have houtOf : WorkerState.outOf (WorkerState.scanning (F c)) = F c := rfl
    simp only [inFlight, List.map_set, houtOf] at hbal ⊢
    rw [hflat]
    simp only [List.map_append, List.map_cons, List.map_nil, List.flatten_append,
      List.flatten_cons, List.flatten_nil, List.append_nil, ← Multiset.coe_add]
    rw [← hbal]
    abel
  | emit i r out hw =>
    have hcount := countP_set_exchange (fun w => w != WorkerState.exited)
      s.workers i (WorkerState.scanning (r :: out)) (WorkerState.scanning out) hw
    have hb1 : ((fun w => w != WorkerState.exited) (WorkerState.scanning (r :: out))) = true := rfl
    have hb2 : ((fun w => w != WorkerState.exited) (WorkerState.scanning out)) = true := rfl
    rw [hb1, hb2, if_pos rfl] at hcount
    have hget : (s.workers.map WorkerState.outOf).get? i = some (r :: out) := by
      rw [List.get?_map, hw]; rfl
    have hflat := multiset_flatten_set_exchange (s.workers.map WorkerState.outOf)
      i (r :: out) out hget
    refine ⟨?_, ?_, ?_, ?_⟩ <;> dsimp only
    · omega
    · exact hcc
    · exact hrc
    have houtOf : WorkerState.outOf (WorkerState.scanning out) = out := rfl
    simp only [inFlight, List.map_set, houtOf] at hbal ⊢
    have hcons : ((r :: out : List ResultWithMetadata) : Multiset ResultWithMetadata)
        = ({r} : Multiset ResultWithMetadata) + (out : Multiset ResultWithMetadata) := by
      rw [← Multiset.cons_coe, ← Multiset.singleton_add]
    rw [hcons, ← add_assoc] at hflat
    have hcancel := add_right_cancel hflat
    have hsplit : ((s.delivered ++ [r] : List ResultWithMetadata) : Multiset ResultWithMetadata)
        = (s.delivered : Multiset ResultWithMetadata) + ({r} : Multiset ResultWithMetadata) := by
      rw [← Multiset.coe_singleton r, ← Multiset.coe_add]
    rw [hsplit, ← hbal, add_assoc, add_comm ({r} : Multiset ResultWithMetadata), hcancel]
  | finish i hw =>
    have hcount := countP_set_exchange (fun w => w != WorkerState.exited)
      s.workers i (WorkerState.scanning []) WorkerState.waiting hw
    have hb1 : ((fun w => w != WorkerState.exited) (WorkerState.scanning [])) = true := rfl
    have hb2 : ((fun w => w != WorkerState.exited) WorkerState.waiting) = true := rfl
    rw [hb1, hb2, if_pos rfl] at hcount
    have hget : (s.workers.map WorkerState.outOf).get? i = some [] := by
      rw [List.get?_map, hw]; rfl
    have hflat := multiset_flatten_set_exchange (s.workers.map WorkerState.outOf)
      i [] [] hget
    have hcancel := add_right_cancel hflat
    refine ⟨?_, ?_, ?_, ?_⟩ <;> dsimp only
    · omega
    · exact hcc
    · exact hrc
    have houtOf : WorkerState.outOf WorkerState.waiting = [] := rfl
    simp only [inFlight, List.map_set, houtOf] at hbal ⊢
    rw [hcancel, hbal]
  | exit i hw hcl hp =>
    have hcount := countP_set_exchange (fun w => w != WorkerState.exited)
      s.workers i WorkerState.waiting WorkerState.exited hw
    have hb1 : ((fun w => w != WorkerState.exited) WorkerState.waiting) = true := rfl
    have hb2 : ((fun w => w != WorkerState.exited) WorkerState.exited) = false := rfl
    rw [hb1, hb2, if_pos rfl, if_neg (by simp)] at hcount
    have hget : (s.workers.map WorkerState.outOf).get? i = some [] := by
      rw [List.get?_map, hw]; rfl
    have hflat := multiset_flatten_set_exchange (s.workers.map WorkerState.outOf)
      i [] [] hget
    have hcancel := add_right_cancel hflat
    refine ⟨?_, ?_, ?_, ?_⟩ <;> dsimp only
    · omega
    · exact hcc
    · intro hr
      have := hrc hr
      omega
    have houtOf : WorkerState.outOf WorkerState.exited = [] := rfl
    simp only [inFlight, List.map_set, houtOf] at hbal ⊢
    rw [hcancel, hbal]
  | closeOut hwg0 hcc0 =>
    refine ⟨hwg, by simp [hcc0], fun _ => hwg0, hbal⟩

theorem engineInv_reachable (F : Chunk → List ResultWithMetadata) (n : Nat)
    (chunks : List Chunk) (s : EngineRunState)
    (h : EngineReachable F n chunks s) : EngineInv F s := by
  induction h with
  | refl => exact engineInv_init F n chunks
  | tail hsteps hstep ih => exact engineInv_step F _ _ hstep ih

theorem inFlight_eq_nil_of_exited (s : EngineRunState)
    (h : ∀ w ∈ s.workers, w = WorkerState.exited) : inFlight s = [] := by
  unfold inFlight
  have hgen : ∀ ws : List WorkerState, (∀ w ∈ ws, w = WorkerState.exited) →
      (ws.map WorkerState.outOf).flatten = [] := by
    intro ws
    induction ws with
    | nil => intro _; rfl
    | cons w ws ih =>
      intro hws
      rw [List.map_cons, List.flatten_cons, hws w (by simp),
        ih (fun w hw => hws w (by simp [hw]))]
      rfl
  exact hgen s.workers h

/-- **C1**: in every run of the Detection Engine, whenever the results
channel has been closed, the close ran exactly once, every worker has
exited (and so permanently stopped drawing from the input channel: an
exited worker enables no further `take` step), no result is still held
in-flight inside the pool, and the multiset of results delivered on the
output channel is exactly the results `detectorWorker` computes for the
chunks taken from the input — nothing was dropped by an early close. -/
theorem C1_results_close_after_full_drain (decs : List Decoder)
    (m : DetectorMap) (ord : List Bool) (n : Nat) (chunks : List Chunk)
    (s : EngineRunState)
    (h : EngineReachable (fun c => emittedOf (scanChunk decs m ord c)) n chunks s)
    (hclosed : s.resultsClosed = true) :
    (∀ w ∈ s.workers, w = WorkerState.exited) ∧
    inFlight s = [] ∧
    (s.delivered : Multiset ResultWithMetadata) =
      ((s.taken.map (fun c => emittedOf (scanChunk decs m ord c))).flatten :
        Multiset ResultWithMetadata) ∧
    s.closeCount = 1 := by
  obtain ⟨hwg, hcc, hrc, hbal⟩ :=
    engineInv_reachable (fun c => emittedOf (scanChunk decs m ord c)) n chunks s h
  have hwg0 := hrc hclosed
  have hall : ∀ w ∈ s.workers, w = WorkerState.exited := by
    intro w hwmem
    have hz : s.workers.countP (fun w => w != WorkerState.exited) = 0 := by omega
    have hnp := List.countP_eq_zero.mp hz w hwmem
    simpa using hnp
  have hfl := inFlight_eq_nil_of_exited s hall
  refine ⟨hall, hfl, ?_, by rw [hcc, if_pos hclosed]⟩
  rw [hfl] at hbal
  simpa using hbal

theorem C1_witness :
    (∀ w ∈ runFinalW.workers, w = WorkerState.exited) ∧
    inFlight runFinalW = [] ∧
    (runFinalW.delivered : Multiset ResultWithMetadata) =
      ((runFinalW.taken.map
        (fun c => emittedOf (scanChunk [decoderId] mapW [true] c))).flatten :
        Multiset ResultWithMetadata) ∧
    runFinalW.closeCount = 1 := by
  have hreach : EngineReachable
      (fun c => emittedOf (scanChunk [decoderId] mapW [true] c)) 1 [chunkW]
      runFinalW := by
    refine Relation.ReflTransGen.head (EngineStep.take _ 0 chunkW [] rfl rfl) ?_
    refine Relation.ReflTransGen.head (EngineStep.emit _ 0 rwW [] rfl) ?_
    refine Relation.ReflTransGen.head (EngineStep.finish _ 0 rfl) ?_
    refine Relation.ReflTransGen.head (EngineStep.closeInput _ rfl) ?_
    refine Relation.ReflTransGen.head (EngineStep.exit _ 0 rfl rfl rfl) ?_
    refine Relation.ReflTransGen.head (EngineStep.closeOut _ rfl rfl) ?_
    exact Relation.ReflTransGen.refl
  exact C1_results_close_after_full_drain [decoderId] mapW [true] 1 [chunkW]
    runFinalW hreach rfl

/-- **C2**: for any decoded payload, partition present in the map
iteration, and detector position, the detector's `FromData` is invoked on
that payload exactly when at least one of its declared keywords occurs
case-insensitively as a substring of the payload; otherwise the detector
is skipped without the call. -/
theorem C2_keyword_prefilter_iff (m : DetectorMap) (ord : List Bool)
    (decoded chunk : Chunk) (v : Bool) (i : Nat) (hv : v ∈ ord) :
    Event.invoked v i ∈ scanDecoded m ord decoded chunk ↔
      ∃ d, (m.partitionOf v).get? i = some d ∧
        ∃ kw ∈ d.keywords,
          strContains (strToLower decoded.data) (strToLower kw) = true := by
  rw [invoked_mem_scanDecoded m ord decoded chunk v i hv]
  constructor
  · rintro ⟨d, hd, hk⟩
    exact ⟨d, hd, (foundKeyword_iff _ _).mp hk⟩
  · rintro ⟨d, hd, hk⟩
    exact ⟨d, hd, (foundKeyword_iff _ _).mpr hk⟩

theorem C2_witness :
    Event.invoked true 0 ∈ scanDecoded mapW [true] chunkW chunkW :=
  (C2_keyword_prefilter_iff mapW [true] chunkW chunkW true 0 (by decide)).mpr
    ⟨detectorW, rfl, "key", by decide, by decide⟩

/-- **C5**: when a detector passing the prefilter returns an error from its
match function, the worker logs the error and emits nothing for that
detector, continues with the remaining detectors of the partition, and
keeps processing subsequent chunks: nothing aborts. -/
theorem C5_detector_error_logged_and_skipped (v : Bool) (i : Nat)
    (dl data : String) (chunk : Chunk) (d : Detector) (rest : List Detector)
    (msg : String) (decs : List Decoder) (m : DetectorMap) (ord : List Bool)
    (c : Chunk) (cs : List Chunk)
    (hk : foundKeyword dl d.keywords = true)
    (he : d.fromData v data = .error msg) :
    scanDetectors v dl data chunk i (d :: rest) =
      Event.invoked v i :: Event.errorLogged v i msg ::
        scanDetectors v dl data chunk (i + 1) rest ∧
    emittedOf [Event.invoked v i, Event.errorLogged v i msg] = [] ∧
    detectorWorker decs m ord (c :: cs) =
      scanChunk decs m ord c ++ detectorWorker decs m ord cs := by
  refine ⟨?_, rfl, ?_⟩
  · simp [scanDetectors, scanDetector, hk, he]
  · simp [detectorWorker]

theorem C5_witness :
    scanDetectors true "the key" "the key" chunkW 0 [detectorErrW, detectorW] =
      Event.invoked true 0 :: Event.errorLogged true 0 "boom" ::
        scanDetectors true "the key" "the key" chunkW 1 [detectorW] ∧
    emittedOf [Event.invoked true 0, Event.errorLogged true 0 "boom"] = [] ∧
    detectorWorker [decoderId] mapW [true] [chunkW, chunkW] =
      scanChunk [decoderId] mapW [true] chunkW ++
        detectorWorker [decoderId] mapW [true] [chunkW] :=
  C5_detector_error_logged_and_skipped true 0 "the key" "the key" chunkW
    detectorErrW [detectorW] "boom" [decoderId] mapW [true] chunkW [chunkW]
    (by decide) rfl

/-- **C10**: every decoder in the chain is applied to the original chunk
independently — a successful decode does not stop the chain — and a chunk
decoded by two decoders into the same payload is scanned twice, emitting
its findings twice. -/
theorem C10_decoders_independent (d1 d2 : Decoder) (decs : List Decoder)
    (m : DetectorMap) (ord : List Bool) (c p : Chunk)
    (h1 : d1 c = some p) (h2 : d2 c = some p) :
    scanChunk (d1 :: decs) m ord c =
      scanDecoded m ord p c ++ scanChunk decs m ord c ∧
    emittedOf (scanChunk [d1, d2] m ord c) =
      emittedOf (scanDecoded m ord p c) ++ emittedOf (scanDecoded m ord p c) := by
  constructor
  · simp [scanChunk, h1]
  · simp [scanChunk, h1, h2, emittedOf_append]

theorem C10_witness :
    scanChunk [decoderId, decoderId] mapW [true] chunkW =
      scanDecoded mapW [true] chunkW chunkW ++
        scanChunk [decoderId] mapW [true] chunkW ∧
    emittedOf (scanChunk [decoderId, decoderId] mapW [true] chunkW) =
      emittedOf (scanDecoded mapW [true] chunkW chunkW) ++
        emittedOf (scanDecoded mapW [true] chunkW chunkW) :=
  C10_decoders_independent decoderId decoderId [decoderId] mapW [true]
    chunkW chunkW rfl rfl

/-! ### Lemmas about `Start`'s option application -/

theorem foldl_applyOption_concurrency (options : List EngineOption) (e : Engine)
    (h : ∀ o ∈ options, ∀ k, o ≠ EngineOption.withConcurrency k) :
    (options.foldl applyOption e).concurrency = e.concurrency := by
  induction options generalizing e with
  | nil => rfl
  | cons o os ih =>
    rw [List.foldl_cons, ih _ (fun o' ho' k => h o' (by simp [ho']) k)]
    cases o with
    | withConcurrency k => exact absurd rfl (h _ (by simp) k)
    | withDetectors v ds => rfl
    | withDecoders ds => rfl

theorem foldl_applyOption_decoders (options : List EngineOption) (e : Engine)
    (h : ∀ o ∈ options, ∀ ds, o ≠ EngineOption.withDecoders ds) :
    (options.foldl applyOption e).decoders = e.decoders := by
  induction options generalizing e with
  | nil => rfl
  | cons o os ih =>
    rw [List.foldl_cons, ih _ (fun o' ho' ds => h o' (by simp [ho']) ds)]
    cases o with
    | withConcurrency k => rfl
    | withDetectors v ds => rfl
    | withDecoders ds => exact absurd rfl (h _ (by simp) ds)

theorem foldl_applyOption_detectors (options : List EngineOption) (e : Engine)
    (h : ∀ o ∈ options, ∀ v ds, o ≠ EngineOption.withDetectors v ds) :
    (options.foldl applyOption e).detectors = e.detectors := by
  induction options generalizing e with
  | nil => rfl
  | cons o os ih =>
    rw [List.foldl_cons, ih _ (fun o' ho' v ds => h o' (by simp [ho']) v ds)]
    cases o with
    | withConcurrency k => rfl
    | withDetectors v ds => exact absurd rfl (h _ (by simp) v ds)
    | withDecoders ds => rfl

theorem setDefaultConcurrency_decoders (numCPU : Nat) (e : Engine) :
    (setDefaultConcurrency numCPU e).decoders = e.decoders := by
  unfold setDefaultConcurrency
  split <;> rfl

theorem setDefaultConcurrency_detectors (numCPU : Nat) (e : Engine) :
    (setDefaultConcurrency numCPU e).detectors = e.detectors := by
  unfold setDefaultConcurrency
  split <;> rfl

theorem setDefaultDecoders_concurrency (ds : List Decoder) (e : Engine) :
    (setDefaultDecoders ds e).concurrency = e.concurrency := by
  unfold setDefaultDecoders
  split <;> rfl

theorem setDefaultDecoders_detectors (ds : List Decoder) (e : Engine) :
    (setDefaultDecoders ds e).detectors = e.detectors := by
  unfold setDefaultDecoders
  split <;> rfl

theorem setDefaultDetectors_concurrency (ds : List Detector) (e : Engine) :
    (setDefaultDetectors ds e).concurrency = e.concurrency := by
  unfold setDefaultDetectors
  split <;> rfl

theorem setDefaultDetectors_decoders (ds : List Detector) (e : Engine) :
    (setDefaultDetectors ds e).decoders = e.decoders := by
  unfold setDefaultDetectors
  split <;> rfl

/-- **C6**: at engine startup, when no worker count is configured the
engine falls back to the host's number of execution units; when no
decoders are supplied the default decoder set is installed; and when no
detectors are supplied the default detector set is installed under the
`verify = true` partition only (the `false` key stays absent). -/
theorem C6_start_defaults (numCPU : Nat) (defaultDecoders : List Decoder)
    (defaultDetectors : List Detector) (options : List EngineOption) :
    ((∀ o ∈ options, ∀ k, o ≠ EngineOption.withConcurrency k) →
      (Start numCPU defaultDecoders defaultDetectors options).concurrency = numCPU) ∧
    ((∀ o ∈ options, ∀ ds, o ≠ EngineOption.withDecoders ds) →
      (Start numCPU defaultDecoders defaultDetectors options).decoders = defaultDecoders) ∧
    ((∀ o ∈ options, ∀ v ds, o ≠ EngineOption.withDetectors v ds) →
      (Start numCPU defaultDecoders defaultDetectors options).detectors =
        ⟨some defaultDetectors, none⟩) := by
  refine ⟨?_, ?_, ?_⟩
  · intro h
    have hc := foldl_applyOption_concurrency options emptyEngine h
    unfold Start
    rw [setDefaultDetectors_concurrency, setDefaultDecoders_concurrency]
    unfold setDefaultConcurrency
    rw [hc]
    rfl
  · intro h
    have hd := foldl_applyOption_decoders options emptyEngine h
    unfold Start
    rw [setDefaultDetectors_decoders]
    unfold setDefaultDecoders
    rw [setDefaultConcurrency_decoders, hd]
    rfl
  · intro h
    have hd := foldl_applyOption_detectors options emptyEngine h
    unfold Start
    unfold setDefaultDetectors
    rw [setDefaultDecoders_detectors, setDefaultConcurrency_detectors, hd]
    rfl

theorem C6_witness :
    (Start 8 [decoderId] [detectorW] []).concurrency = 8 ∧
    (Start 8 [decoderId] [detectorW] []).decoders = [decoderId] ∧
    (Start 8 [decoderId] [detectorW] []).detectors = ⟨some [detectorW], none⟩ :=
  ⟨(C6_start_defaults 8 [decoderId] [detectorW] []).1 (by simp),
   (C6_start_defaults 8 [decoderId] [detectorW] []).2.1 (by simp),
   (C6_start_defaults 8 [decoderId] [detectorW] []).2.2 (by simp)⟩

/-- **C8 counterexample**: the worker iterates the registry with
`for verify, detectorsSet := range e.detectors` (engine.go:116), and Go
does not fix the iteration order of a map; for a registry holding both
partitions, the two legitimate `range` orders over the same registry and
the same chunk emit the findings in different orders, so the iteration
order is not deterministic across runs as the claim states. -/
theorem C8_counterexample :
    List.Perm [true, false] (DetectorMap.keys mapBothW) ∧
    List.Perm [false, true] (DetectorMap.keys mapBothW) ∧
    emittedOf (scanChunk [decoderId] mapBothW [true, false] chunkW) ≠
      emittedOf (scanChunk [decoderId] mapBothW [false, true] chunkW) := by
  refine ⟨List.Perm.refl _, List.Perm.swap true false [], ?_⟩
  decide

/-- **C8 (amended)**: within one chunk processed by one worker, findings
are emitted in the order the detectors are iterated — for a fixed key
iteration order the emitted findings are exactly the concatenation, key by
key, of each partition's findings in its slice order.  The key order of
Go's map `range` is not specified, so run-to-run determinism is guaranteed
(and proved here) when the registry holds at most one partition key: any
two orders a `range` can produce then coincide, and two runs of the worker
on the same chunk emit identical traces. -/
theorem C8_amended_order (m : DetectorMap) (ord o1 o2 : List Bool)
    (decs : List Decoder) (decoded chunk c : Chunk)
    (hk : m.keys.length ≤ 1)
    (h1 : List.Perm o1 m.keys) (h2 : List.Perm o2 m.keys) :
    emittedOf (scanDecoded m ord decoded chunk) =
      (ord.map (fun v => partitionFindings v decoded chunk (m.partitionOf v))).flatten ∧
    scanChunk decs m o1 c = scanChunk decs m o2 c := by
  refine ⟨emittedOf_scanDecoded m ord decoded chunk, ?_⟩
  have ho : o1 = o2 := by
    rcases hmk : m.keys with _ | ⟨b, _ | ⟨b', t⟩⟩
    · rw [hmk] at h1 h2
      rw [List.perm_nil.mp h1, List.perm_nil.mp h2]
    · rw [hmk] at h1 h2
      rw [List.perm_singleton.mp h1, List.perm_singleton.mp h2]
    · rw [hmk] at hk
      simp at hk
  rw [ho]

theorem C8_amended_witness :
    emittedOf (scanDecoded mapW [true] chunkW chunkW) =
      ([true].map
        (fun v => partitionFindings v chunkW chunkW (mapW.partitionOf v))).flatten ∧
    scanChunk [decoderId] mapW [true] chunkW =
      scanChunk [decoderId] mapW [true] chunkW :=
  C8_amended_order mapW [true] [true] [true] [decoderId] chunkW chunkW chunkW
    (by decide) (List.Perm.refl _) (List.Perm.refl _)

/-- **C3**: the rate-limit guard recommends waiting only when called with a
rate-limit error and a response whose remaining-requests header is `0` and
whose reset timestamp lies in the future; in particular it answers "wait"
for a rate-limit error with `remaining = 0` and `reset = now + 1`, and
"do not wait" for nil error and nil response. -/
theorem C3_handleRateLimit_guard :
    (∀ (now : Int) (isErr : Bool) (res : Option RateLimitResponse),
      handleRateLimit now isErr res = true →
        isErr = true ∧ ∃ r, res = some r ∧ r.remaining = some 0 ∧
          ∃ t, r.reset = some t ∧ now < t) ∧
    (∀ now : Int,
      handleRateLimit now true (some ⟨some 0, some (now + 1)⟩) = true) ∧
    (∀ now : Int, handleRateLimit now false none = false) := by
  refine ⟨?_, ?_, ?_⟩
  · intro now isErr res h
    unfold handleRateLimit at h
    cases isErr with
    | false => simp at h
    | true =>
      cases res with
      | none => simp at h
      | some r =>
        rcases r with ⟨rem, rst⟩
        rcases rem with _ | rem <;> rcases rst with _ | t <;> simp at h
        obtain ⟨h0, ht⟩ := h
        exact ⟨rfl, ⟨some rem, some t⟩, rfl, by rw [h0], t, rfl, ht⟩
  · intro now
    unfold handleRateLimit
    simp
  · intro now
    rfl

theorem C3_witness :
    true = true ∧ ∃ r, (some (⟨some 0, some 1⟩ : RateLimitResponse)) = some r ∧
      r.remaining = some 0 ∧ ∃ t, r.reset = some t ∧ (0 : Int) < t :=
  C3_handleRateLimit_guard.1 0 true (some ⟨some 0, some 1⟩) (by decide)

/-- **C4**: a repo-sequence entry that is a bare login for which both the
per-login repos and gists endpoints return 404 contributes its unresolved
self plus exactly one empty-string placeholder, and normalization is total:
the run never fails on 404s. -/
theorem C4_normalize_404_placeholder (api : GithubApi) (login : String)
    (hurl : isGithubURL login = false)
    (hrepos : api.userRepos login = .error ApiErr.notFound)
    (hgists : api.userGists login = .error ApiErr.notFound) :
    normalizeEntry api login = [login, ""] ∧
    (∀ s : Source, s.repos = [login] →
      (normalizeRepos api s).repos = [login, ""]) := by
  have hentry : normalizeEntry api login = [login, ""] := by
    unfold normalizeEntry
    rw [if_neg (by simp [hurl]), hrepos, hgists]
    rfl
  refine ⟨hentry, ?_⟩
  intro s hs
  unfold normalizeRepos
  rw [hs]
  simp [hentry]

theorem C4_witness :
    normalizeEntry api404W "not-found" = ["not-found", ""] ∧
    (normalizeRepos api404W ⟨["not-found"], [], []⟩).repos = ["not-found", ""] := by
  have h := C4_normalize_404_placeholder api404W "not-found" (by decide) rfl rfl
  exact ⟨h.1, h.2 ⟨["not-found"], [], []⟩ rfl⟩

theorem addMembersOrgs_append_only (api : GithubApi) (orgs : List String)
    (s s' : Source) (h : addMembersOrgs api orgs s = .ok s') :
    (∃ t, s'.members = s.members ++ t) ∧ s'.repos = s.repos ∧ s'.orgs = s.orgs := by
  induction orgs generalizing s with
  | nil =>
    unfold addMembersOrgs at h
    injection h with h
    subst h
    exact ⟨⟨[], by simp⟩, rfl, rfl⟩
  | cons org rest ih =>
    unfold addMembersOrgs at h
    cases hm : api.orgMembers org with
    | error e => rw [hm] at h; exact absurd h (by simp)
    | ok ms =>
      rw [hm] at h
      obtain ⟨⟨t, ht⟩, hr, ho⟩ := ih _ h
      exact ⟨⟨ms ++ t, by rw [ht]; simp⟩, hr, ho⟩

/-- **C9**: for an application installation whose installation listing
discovers one organization, whose member listing returns `[m1, m2, m3]`,
`addMembersByApp` succeeds and yields exactly `[m1, m2, m3]` as the member
sequence, in listing order. -/
theorem C9_addMembersByApp_order (api : GithubApi) (org m1 m2 m3 : String)
    (s : Source) (hs : s.members = [])
    (hi : api.appInstallationOrgs = .ok [org])
    (hm : api.orgMembers org = .ok [m1, m2, m3]) :
    addMembersByApp api s = .ok { s with members := [m1, m2, m3] } := by
  unfold addMembersByApp
  rw [hi]
  unfold addMembersOrgs
  rw [hm]
  unfold addMembersOrgs
  rw [hs]
  simp

theorem C9_witness :
    addMembersByApp apiAppW ⟨[], [], []⟩ =
      .ok ⟨[], [], ["ssm1", "ssm2", "ssm3"]⟩ :=
  C9_addMembersByApp_order apiAppW "super-secret-org" "ssm1" "ssm2" "ssm3"
    ⟨[], [], []⟩ rfl rfl rfl

/-- **C7 counterexample**: `normalizeRepos` is not append-only.  In the
exact scenario pinned by `TestNormalizeRepos` (github_test.go:185-200) a
repo sequence holding one resolvable bare login is rebuilt into the
resolved repo and gist URLs; the prior sequence is not a prefix of the
result, so the claim that every operation including `normalizeRepos`
preserves existing entries as a prefix fails. -/
theorem C7_counterexample :
    (normalizeRepos apiUserW ⟨["super-secret-user"], [], []⟩).repos =
      ["super-secret-repo", "super-secret-gist"] ∧
    ¬∃ t, (normalizeRepos apiUserW ⟨["super-secret-user"], [], []⟩).repos =
      ["super-secret-user"] ++ t := by
  refine ⟨by decide, ?_⟩
  rintro ⟨t, ht⟩
  have h : (normalizeRepos apiUserW ⟨["super-secret-user"], [], []⟩).repos =
      ["super-secret-repo", "super-secret-gist"] := by decide
  rw [h] at ht
  injection ht with h1 h2
  exact absurd h1 (by decide)

/-- **C7 (amended)**: during a single enumeration pass every `add*`
operation is append-only — it preserves each of the repo, org, and member
sequences of the Enumeration State as a prefix and only appends new
entries — while `normalizeRepos` rebuilds the repo sequence entry by
entry (leaving the org and member sequences untouched) and is not
guaranteed to remove duplicates. -/
theorem C7_amended_append_only :
    (∀ api org s s', addReposByOrg api org s = .ok s' →
      (∃ t, s'.repos = s.repos ++ t) ∧ s'.orgs = s.orgs ∧ s'.members = s.members) ∧
    (∀ api user s s', addReposByUser api user s = .ok s' →
      (∃ t, s'.repos = s.repos ++ t) ∧ s'.orgs = s.orgs ∧ s'.members = s.members) ∧
    (∀ api user s,
      (∃ t, (addGistsByUser api user s).repos = s.repos ++ t) ∧
      (addGistsByUser api user s).orgs = s.orgs ∧
      (addGistsByUser api user s).members = s.members) ∧
    (∀ api s,
      (∃ t, (addOrgsByUser api s).orgs = s.orgs ++ t) ∧
      (addOrgsByUser api s).repos = s.repos ∧
      (addOrgsByUser api s).members = s.members) ∧
    (∀ api s s', addMembersByApp api s = .ok s' →
      (∃ t, s'.members = s.members ++ t) ∧ s'.repos = s.repos ∧ s'.orgs = s.orgs) ∧
    (∀ api s s', addReposByApp api s = .ok s' →
      (∃ t, s'.repos = s.repos ++ t) ∧ s'.orgs = s.orgs ∧ s'.members = s.members) ∧
    (∀ api s, (normalizeRepos api s).repos =
        (s.repos.map (normalizeEntry api)).flatten ∧
      (normalizeRepos api s).orgs = s.orgs ∧
      (normalizeRepos api s).members = s.members) ∧
    (normalizeRepos api404W ⟨["https://a.git", "https://a.git"], [], []⟩).repos =
      ["https://a.git", "https://a.git"] := by
  refine ⟨?_, ?_, ?_, ?_, ?_, ?_, fun api s => ⟨rfl, rfl, rfl⟩, by decide⟩
  · intro api org s s' h
    unfold addReposByOrg at h
    cases hr : api.orgRepos org with
    | error e => rw [hr] at h; exact absurd h (by simp)
    | ok rs =>
      rw [hr] at h
      injection h with h
      subst h
      exact ⟨⟨rs, rfl⟩, rfl, rfl⟩
  · intro api user s s' h
    unfold addReposByUser at h
    cases hr : api.userRepos user with
    | error e => rw [hr] at h; exact absurd h (by simp)
    | ok rs =>
      rw [hr] at h
      injection h with h
      subst h
      exact ⟨⟨rs, rfl⟩, rfl, rfl⟩
  · intro api user s
    unfold addGistsByUser
    cases api.userGists user with
    | error e => exact ⟨⟨[], by simp⟩, rfl, rfl⟩
    | ok gs => exact ⟨⟨gs, rfl⟩, rfl, rfl⟩
  · intro api s
    unfold addOrgsByUser
    cases api.userOrgs with
    | error e => exact ⟨⟨[], by simp⟩, rfl, rfl⟩
    | ok os => exact ⟨⟨os, rfl⟩, rfl, rfl⟩
  · intro api s s' h
    unfold addMembersByApp at h
    cases hi : api.appInstallationOrgs with
    | error e => rw [hi] at h; exact absurd h (by simp)
    | ok orgs =>
      rw [hi] at h
      exact addMembersOrgs_append_only api orgs s s' h
  · intro api s s' h
    unfold addReposByApp at h
    cases hr : api.installationRepos with
    | error e => rw [hr] at h; exact absurd h (by simp)
    | ok rs =>
      rw [hr] at h
      injection h with h
      subst h
      exact ⟨⟨rs, rfl⟩, rfl, rfl⟩

theorem C7_amended_witness :
    (∃ t, (⟨["r0", "super-secret-repo"], [], []⟩ : Source).repos = ["r0"] ++ t) ∧
    (⟨["r0", "super-secret-repo"], [], []⟩ : Source).orgs = ([] : List String) ∧
    (⟨["r0", "super-secret-repo"], [], []⟩ : Source).members = ([] : List String) :=
  C7_amended_append_only.2.1 apiUserW "super-secret-user" ⟨["r0"], [], []⟩
    ⟨["r0", "super-secret-repo"], [], []⟩ rfl
